import Mathlib

/-!
# Verification of the audiowmark real-time watermarking core

Shallow embedding of the real-time streaming watermark pipeline
(`src/audiowmark_realtime.cc`, `limiter.cc`) over exact rationals:
C++ `float`/`double` values are modelled as `ℚ`, machine integers as
`ℕ`/`ℤ`, and fallible conversions as `Option`.  Transcendental
library calls (`std::sin`, FFT magnitudes, `exp`) are abstracted as
explicit oracle parameters; every branch and state update around them
is translated from the source.
-/

namespace AudioWmark

/-! ## Character classification (std::isxdigit, strtol whitespace) -/

/-- `std::isxdigit` in the default locale: `'0'..'9'` (48..57),
`'a'..'f'` (97..102), `'A'..'F'` (65..70). -/
def isxdigit (c : Char) : Bool :=
  (48 ≤ c.toNat && c.toNat ≤ 57) ||
  (97 ≤ c.toNat && c.toNat ≤ 102) ||
  (65 ≤ c.toNat && c.toNat ≤ 70)

/-- `isspace` in the default locale, as used by `strtol` when skipping
leading whitespace: space (32) and `'\t'`,`'\n'`,`'\v'`,`'\f'`,`'\r'` (9..13). -/
def isspaceC (c : Char) : Bool :=
  c.toNat = 32 || (9 ≤ c.toNat && c.toNat ≤ 13)

/-- Numeric value of a hexadecimal digit character. -/
def hexDigitVal (c : Char) : ℕ :=
  if 48 ≤ c.toNat && c.toNat ≤ 57 then c.toNat - 48
  else if 97 ≤ c.toNat && c.toNat ≤ 102 then c.toNat - 97 + 10
  else c.toNat - 65 + 10

/-! ## Model of `std::stoi(s, nullptr, 16)` (C `strtol`, base 16) -/

/-- Value of the longest hexadecimal-digit prefix of `l`, accumulated
left to right onto `acc`. -/
def takeHexVal : List Char → ℕ → ℕ
  | [], acc => acc
  | c :: r, acc => if isxdigit c then takeHexVal r (acc * 16 + hexDigitVal c) else acc

/-- Optional sign handling of `strtol`: consume one leading `'+'` or `'-'`. -/
def stripSign (l : List Char) : ℤ × List Char :=
  match l with
  | c :: r => if c = '+' then (1, r) else if c = '-' then (-1, r) else (1, c :: r)
  | [] => (1, [])

/-- Optional `0x`/`0X` prefix of `strtol` base 16: consumed only when a
hexadecimal digit follows (otherwise the subject sequence is just the `'0'`). -/
def stripHexPrefix (l : List Char) : List Char :=
  match l with
  | a :: b :: c :: r =>
      if a = '0' && (b = 'x' || b = 'X') && isxdigit c then c :: r else l
  | _ => l

/-- Model of `std::stoi(s, nullptr, 16)`: skip leading whitespace, accept an
optional sign and an optional `0x`/`0X` prefix, then convert the longest
hexadecimal-digit prefix; `none` when no conversion is performed
(`std::stoi` throws `std::invalid_argument`).  At the call sites the input
has exactly two characters, so `std::out_of_range` cannot occur. -/
def stoi16 (s : List Char) : Option ℤ :=
  let s1 := s.dropWhile isspaceC
  let sr := stripSign s1
  let s2 := stripHexPrefix sr.2
  match s2 with
  | [] => none
  | c :: _ => if isxdigit c then some (sr.1 * (takeHexVal s2 0 : ℤ)) else none

/-! ## parse_payload (audiowmark_realtime.cc lines 23-49) -/

/-- MSB-first bits of `byte_value`: for `bit = 7..0`, `(byte_value >> bit) & 1`.
C++ `>>` on a (possibly negative) `int` is an arithmetic shift, i.e. floor
division by `2^bit`, and `& 1` extracts the low two's-complement bit,
i.e. the euclidean remainder mod 2. -/
def byteBits (v : ℤ) : List ℤ :=
  (List.range 8).reverse.map (fun b => (v.fdiv (2 ^ b)).emod 2)

/-- The byte-pair loop of `parse_payload`: `none` models the early
`return {}` paths (odd length, or `std::stoi` throwing). -/
def parsePayloadLoop : List Char → Option (List ℤ)
  | [] => some []
  | [_] => none
  | a :: b :: rest =>
    match stoi16 [a, b] with
    | none => none
    | some v =>
      match parsePayloadLoop rest with
      | none => none
      | some tail => some (byteBits v ++ tail)

/-- `parse_payload` (audiowmark_realtime.cc:23-49): the empty input returns the
empty bit vector, and every failure path also returns the empty vector `{}`. -/
def parse_payload (hex : List Char) : List ℤ :=
  if hex.isEmpty then [] else (parsePayloadLoop hex).getD []

/-! ## Utils (audiowmark_realtime.cc lines 320-363) -/

/-- Lowercase hexadecimal digit character for `d < 16`. -/
def hexChar (d : ℕ) : Char :=
  if d < 10 then Char.ofNat (48 + d) else Char.ofNat (97 + (d - 10))

/-- `string_printf("%02x", b)` for `b < 256`: exactly two lowercase hex digits. -/
def byteToHex (b : ℕ) : List Char := [hexChar (b / 16), hexChar (b % 16)]

/-- `Utils::TextToHex`: each byte of the text (after the
`static_cast<unsigned char>` of the C++ `char`, modelled by `% 256`)
becomes two lowercase hex digits.  Text is modelled as its byte values. -/
def TextToHex (text : List ℕ) : List Char :=
  (text.map (fun c => byteToHex (c % 256))).flatten

/-- Byte-pair loop of `Utils::HexToText`: a trailing odd character is
silently skipped (`if (i + 1 < hex.length())`), and a `std::stoi` failure
aborts the whole conversion (`return ""`, modelled by `none`).
`static_cast<char>` keeps the low 8 bits of the parsed value. -/
def hexToTextLoop : List Char → Option (List ℕ)
  | a :: b :: rest =>
    match stoi16 [a, b] with
    | none => none
    | some v =>
      match hexToTextLoop rest with
      | none => none
      | some tail => some ((v.emod 256).toNat :: tail)
  | [_] => some []
  | [] => some []

/-- `Utils::HexToText` (audiowmark_realtime.cc:330-344). -/
def HexToText (hex : List Char) : List ℕ :=
  (hexToTextLoop hex).getD []

/-- `Utils::IsValidHexMessage` (audiowmark_realtime.cc:346-357): rejects the
empty string and odd lengths, then requires every character to satisfy
`std::isxdigit`. -/
def IsValidHexMessage (hex : List Char) : Bool :=
  if hex.isEmpty || hex.length % 2 != 0 then false
  else hex.all isxdigit

/-! ## Limiter (limiter.cc)

State fields follow the class members used by `Limiter::Limiter` and
`Limiter::process`; their declarations live in `limiter.hh`, which is not
among the sources.  Modelled from the spec: `look_ahead` is an unsigned
integral sample count ("two parallel fixed-length histories of length
look_ahead ... samples"), and `maximum` (the spec's `smoothed_gain`) is
initialized to 1.0.  `decay_coeff = exp(log 0.5 / (sample_rate * 0.05))`
is transcendental, so it is carried as an opaque rational parameter. -/

structure LimiterState where
  look_ahead : ℕ
  decay_coeff : ℚ
  buffer : List ℚ
  max_buffer : List ℚ
  maximum : ℚ

/-- `look_ahead = sample_rate * 0.005`: the C++ double-to-unsigned
conversion truncates toward zero. -/
def lookAhead (sample_rate : ℕ) : ℕ := ⌊(sample_rate : ℚ) * (5 / 1000)⌋₊

/-- `Limiter::Limiter(sample_rate)`: empty histories, `maximum = 1`. -/
def Limiter.init (sample_rate : ℕ) (decay : ℚ) : LimiterState :=
  { look_ahead := lookAhead sample_rate, decay_coeff := decay,
    buffer := [], max_buffer := [], maximum := 1 }

/-- The inner broadcast of `Limiter::process`: a peak `v = |buffer[i]| > 1`
raises `max_buffer[i - j]` for `j ∈ [0, look_ahead)` along a linear ramp,
but only where `int(i) - int(j) > 0`. -/
def broadcastAt (la : ℕ) (v : ℚ) (i : ℕ) (mb : List ℚ) : List ℚ :=
  (List.range la).foldl (fun mb (j : ℕ) =>
    if (i : ℤ) - (j : ℤ) > 0 then
      mb.set (i - j)
        (max (mb.getD (i - j) 0) (v * (1 - (j : ℚ) / (la : ℚ)) + (j : ℚ) / (la : ℚ)))
    else mb) mb

/-- The scan of `Limiter::process` over the whole history: every sample with
`|buffer[i]| > 1` broadcasts backward into `max_buffer`. -/
def computeMaxBuffer (la : ℕ) (buf mb : List ℚ) : List ℚ :=
  (List.range buf.length).foldl (fun mb i =>
    if |buf.getD i 0| > 1 then broadcastAt la |buf.getD i 0| i mb else mb) mb

/-- The emission loop of `Limiter::process` over the ready prefix, zipped as
`(buffer[i], max_buffer[i])` pairs: smooth `maximum` by the decay, clamp it
from below by `max_buffer[i]`, and emit `buffer[i] / maximum`. -/
def emitLoop (decay : ℚ) : List (ℚ × ℚ) → ℚ → List ℚ × ℚ
  | [], m => ([], m)
  | (b, g) :: rest, m =>
    let m1 := m * decay + g * (1 - decay)
    let m2 := if m1 < g then g else m1
    let r := emitLoop decay rest m2
    (b / m2 :: r.1, r.2)

/-- `Limiter::process` (limiter.cc:18-59). -/
def Limiter.process (st : LimiterState) (samples : List ℚ) : List ℚ × LimiterState :=
  let buf := st.buffer ++ samples
  let mb0 := st.max_buffer ++ List.replicate samples.length 1
  let mb := computeMaxBuffer st.look_ahead buf mb0
  if st.look_ahead < buf.length then
    let todo := buf.length - st.look_ahead
    let e := emitLoop st.decay_coeff ((buf.take todo).zip (mb.take todo)) st.maximum
    (e.1, { st with buffer := buf.drop todo, max_buffer := mb.drop todo, maximum := e.2 })
  else
    ([], { st with buffer := buf, max_buffer := mb })

/-- Feeding a sequence of chunks through `Limiter::process`, concatenating
the emitted samples. -/
def Limiter.run (st : LimiterState) : List (List ℚ) → List ℚ × LimiterState
  | [] => ([], st)
  | c :: cs =>
    let p := Limiter.process st c
    let r := Limiter.run p.2 cs
    (p.1 ++ r.1, r.2)

/-! ## FrameBuffer (audiowmark_realtime.cc lines 63-107)

The FIFO of interleaved float samples is modelled as a `List ℚ` (front =
oldest).  `push_samples` appends; `pop_frame` returns the empty vector and
leaves the queue untouched when fewer than `frame_size * channels` samples
are buffered, else removes and returns exactly that many in FIFO order. -/

def FrameBuffer.push_samples (buf samples : List ℚ) : List ℚ := buf ++ samples

/-- `FrameBuffer::pop_frame`: `(returned frame, remaining queue)`. -/
def FrameBuffer.pop_frame (buf : List ℚ) (frame_size channels : ℕ) :
    List ℚ × List ℚ :=
  let needed := frame_size * channels
  if buf.length < needed then ([], buf)
  else (buf.take needed, buf.drop needed)

/-- `FrameBuffer::has_frame`. -/
def FrameBuffer.has_frame (buf : List ℚ) (frame_size channels : ℕ) : Bool :=
  frame_size * channels ≤ buf.length

/-- The caller pattern `while (has_frame(n)) pop_frame(n)` of the
StreamAdapter: repeatedly pop fixed-size frames while available, returning
the concatenated popped samples and the remaining queue.  The
`0 < frame_size * channels` guard only ensures termination of the model;
the C++ loop does not terminate when `frame_size * channels = 0`. -/
def FrameBuffer.drainAll (frame_size channels : ℕ) (buf : List ℚ) :
    List ℚ × List ℚ :=
  if h : 0 < frame_size * channels ∧ FrameBuffer.has_frame buf frame_size channels then
    let p := FrameBuffer.pop_frame buf frame_size channels
    let r := FrameBuffer.drainAll frame_size channels p.2
    (p.1 ++ r.1, r.2)
  else ([], buf)
termination_by buf.length
decreasing_by
  simp only [FrameBuffer.pop_frame, FrameBuffer.has_frame, decide_eq_true_eq] at h ⊢
  rw [if_neg (by omega)]
  simp only [List.length_drop]
  omega

/-- Pushing a sequence of chunks in order, popping all available fixed-size
frames after each push (the StreamAdapter reconciliation loop), starting
from queue `buf`; returns concatenated popped samples and final queue. -/
def FrameBuffer.runChunks (frame_size channels : ℕ) (buf : List ℚ) :
    List (List ℚ) → List ℚ × List ℚ
  | [] => ([], buf)
  | c :: cs =>
    let r := FrameBuffer.drainAll frame_size channels (FrameBuffer.push_samples buf c)
    let rest := FrameBuffer.runChunks frame_size channels r.2 cs
    (r.1 ++ rest.1, rest.2)


/-! ## RealtimeDetector (audiowmark_realtime.cc, detector implementation)

`Params::frame_size` is declared in `wmcommon.hh`, which is not among the
sources; its value 1024 is documented at `GetInternalBufferSize` ("1024
samples").  The per-block FFT magnitudes at the 1 kHz and 1.5 kHz bins
come from `FFTAnalyzer::run_fft` (`fft.hh`, also not among the sources);
they are abstracted as an oracle argument of type
`List ℚ → Option (ℚ × ℚ)` — `none` models the early-return paths (empty
fft result, or a carrier bin out of range).  All branching and state
updates around the oracle follow the source. -/

def Params.frame_size : ℕ := 1024

/-- `detection_window_frames` (constructed as 100: "Detect over 100 frames"). -/
def detectionWindowFrames : ℕ := 100

/-- `confidence_threshold` (constructed as 0.7). -/
def confidenceThreshold : ℚ := 7 / 10

/-- State of `RealtimeDetector::Impl`: the two circular score arrays
(`detection_scores[0]`, `detection_scores[1]`, each of length
`detection_window_frames`), the input FrameBuffer and the block counter. -/
structure DetectorImpl where
  sample_rate : ℕ
  channels : ℕ
  frame_buffer : List ℚ
  scores0 : List ℚ
  scores1 : List ℚ
  frames_processed : ℕ

/-- `RealtimeDetector::Impl::Impl(cfg)`. -/
def Detector.init (sample_rate channels : ℕ) : DetectorImpl :=
  { sample_rate := sample_rate, channels := channels, frame_buffer := [],
    scores0 := List.replicate detectionWindowFrames 0,
    scores1 := List.replicate detectionWindowFrames 0,
    frames_processed := 0 }

/-- `analyze_frame_for_watermark`, given the oracle's FFT magnitudes at the
1 kHz and 1.5 kHz bins; writes the two score entries at index
`frames_processed % detection_window_frames`. -/
def analyzeFrame (mags : Option (ℚ × ℚ)) (s : DetectorImpl) : DetectorImpl :=
  match mags with
  | none => s
  | some (mag1000, mag1500) =>
    let idx := s.frames_processed % detectionWindowFrames
    if mag1500 > mag1000 * (12 / 10) then
      { s with scores1 := s.scores1.set idx (mag1500 / (mag1000 + 1 / 10 ^ 10)),
               scores0 := s.scores0.set idx 0 }
    else if mag1000 > mag1500 * (12 / 10) then
      { s with scores0 := s.scores0.set idx (mag1000 / (mag1500 + 1 / 10 ^ 10)),
               scores1 := s.scores1.set idx 0 }
    else
      { s with scores0 := s.scores0.set idx 0, scores1 := s.scores1.set idx 0 }

/-- The `while (frame_buffer.has_frame(Params::frame_size))` loop of
`RealtimeDetector::Impl::process_frame`: pop a block, analyze it, advance
`frames_processed`.  The positivity guard only ensures termination of the
model; the C++ loop does not terminate when `frame_size * channels = 0`
(the Config requires `channels ≥ 1`). -/
def detectorDrain (oracle : List ℚ → Option (ℚ × ℚ)) (s : DetectorImpl) : DetectorImpl :=
  if h : 0 < Params.frame_size * s.channels ∧
      FrameBuffer.has_frame s.frame_buffer Params.frame_size s.channels then
    let p := FrameBuffer.pop_frame s.frame_buffer Params.frame_size s.channels
    let s1 := analyzeFrame (oracle p.1) s
    detectorDrain oracle
      { s1 with frame_buffer := p.2, frames_processed := s1.frames_processed + 1 }
  else s
termination_by s.frame_buffer.length
decreasing_by
  simp only [FrameBuffer.pop_frame, FrameBuffer.has_frame, decide_eq_true_eq] at h ⊢
  rw [if_neg (by omega)]
  simp only [List.length_drop]
  omega

/-- `RealtimeDetector::Impl::process_frame(input, frame_size)`: ignore calls
whose input length mismatches `frame_size * channels` (`initialized` is
always true after construction), else buffer the input and drain whole
blocks. -/
def Detector.process_frame (oracle : List ℚ → Option (ℚ × ℚ)) (s : DetectorImpl)
    (input : List ℚ) (frame_size : ℕ) : DetectorImpl :=
  if input.length ≠ frame_size * s.channels then s
  else detectorDrain oracle
    { s with frame_buffer := FrameBuffer.push_samples s.frame_buffer input }

/-- A sequence of `ProcessFrame` calls, each an `(input, frame_size)` pair. -/
def Detector.run (oracle : List ℚ → Option (ℚ × ℚ)) (s : DetectorImpl) :
    List (List ℚ × ℕ) → DetectorImpl
  | [] => s
  | c :: cs => Detector.run oracle (Detector.process_frame oracle s c.1 c.2) cs

/-- `RealtimeDetector::Impl::get_detection_result`: `none` models
`return false` (no detection); `some (message, confidence)` models
`return true` with the output parameters. -/
def Detector.get_detection_result (s : DetectorImpl) : Option (String × ℚ) :=
  if s.frames_processed < detectionWindowFrames / 2 then none
  else
    let avg0 := ((List.range detectionWindowFrames).map
      (fun i => s.scores0.getD i 0)).sum / (detectionWindowFrames : ℚ)
    let avg1 := ((List.range detectionWindowFrames).map
      (fun i => s.scores1.getD i 0)).sum / (detectionWindowFrames : ℚ)
    let confidence := (avg0 + avg1) / (detectionWindowFrames : ℚ)
    if confidence > confidenceThreshold then
      if avg1 > avg0 * (3 / 2) then some ("48656c6c6f20576f726c6421", confidence)
      else if avg0 > avg1 * (3 / 2) then some ("54657374", confidence)
      else some ("556e6b6e6f776e", confidence)
    else none

/-- `RealtimeDetector::Impl::reset`: zero the block counter, clear the
FrameBuffer, `std::fill` both score arrays with 0.0. -/
def Detector.reset (s : DetectorImpl) : DetectorImpl :=
  { s with frames_processed := 0, frame_buffer := [],
           scores0 := List.replicate s.scores0.length 0,
           scores1 := List.replicate s.scores1.length 0 }

/-- Total number of samples accepted by a sequence of detector
`ProcessFrame` calls (mismatched calls are ignored by the source). -/
def acceptedLen (channels : ℕ) (calls : List (List ℚ × ℕ)) : ℕ :=
  (calls.map (fun c => if c.1.length = c.2 * channels then c.1.length else 0)).sum

/-! ## RealtimeWatermarker (audiowmark_realtime.cc lines 109-284)

`Params::frames_per_bit` is declared in `wmcommon.hh`, which is not among
the sources; it is carried as an explicit parameter `fpb`.  The carrier
value `strength * sin(phase)` computed by `SimpleWatermarkGen` uses
`std::sin` of a phase built from `2π·(1000 + 500·bit)/sample_rate`; the
transcendental sine is abstracted as the oracle
`sinO : ℕ → ℤ → ℚ`, mapping the global sample index
`frame_count * frame_size + i / channels` and the current payload bit to
the sine value; everything around it follows the source. -/

structure WatermarkerImpl where
  sample_rate : ℕ
  channels : ℕ
  strength : ℚ
  bitvec : List ℤ
  frame_count : ℕ
  frame_buffer : List ℚ
  output_buffer : List ℚ
  limiter : LimiterState
  initialized : Bool

/-- `SimpleWatermarkGen::process_frame`: on a size mismatch return the
input unchanged, else add the carrier for the current payload bit to every
sample and advance `frame_count`. -/
def wmGenProcess (sinO : ℕ → ℤ → ℚ) (fpb : ℕ) (s : WatermarkerImpl)
    (input : List ℚ) : List ℚ × WatermarkerImpl :=
  if input.length ≠ Params.frame_size * s.channels then (input, s)
  else
    let bit_index := (s.frame_count / fpb) % s.bitvec.length
    let bit := s.bitvec.getD bit_index 0
    let out := (List.range input.length).map (fun i =>
      input.getD i 0
        + s.strength * sinO (s.frame_count * Params.frame_size + i / s.channels) bit)
    (out, { s with frame_count := s.frame_count + 1 })

/-- The `while (frame_buffer->has_frame(Params::frame_size))` loop of
`RealtimeWatermarker::Impl::process_frame`: pop a block, watermark it, run
it through the Limiter, append the result to the output buffer.  The
positivity guard only ensures termination of the model; the C++ loop does
not terminate when `frame_size * channels = 0` (the Config requires
`channels ≥ 1`). -/
def watermarkerDrain (sinO : ℕ → ℤ → ℚ) (fpb : ℕ) (s : WatermarkerImpl) :
    WatermarkerImpl :=
  if h : 0 < Params.frame_size * s.channels ∧
      FrameBuffer.has_frame s.frame_buffer Params.frame_size s.channels then
    let p := FrameBuffer.pop_frame s.frame_buffer Params.frame_size s.channels
    let w := wmGenProcess sinO fpb s p.1
    let l := Limiter.process w.2.limiter w.1
    watermarkerDrain sinO fpb
      { w.2 with
          frame_buffer := p.2
          limiter := l.2
          output_buffer := FrameBuffer.push_samples w.2.output_buffer l.1 }
  else s
termination_by s.frame_buffer.length
decreasing_by
  simp only [FrameBuffer.pop_frame, FrameBuffer.has_frame, decide_eq_true_eq] at h ⊢
  rw [if_neg (by omega)]
  simp only [List.length_drop]
  omega

/-- `RealtimeWatermarker::Impl::process_frame(input, frame_size)`:
uninitialized instances pass the input through; otherwise buffer the input,
drain whole blocks through watermarking and limiting, and return
`frame_size * channels` output samples when available, else a same-sized
block of silence (startup latency). -/
def Watermarker.impl_process_frame (sinO : ℕ → ℤ → ℚ) (fpb : ℕ)
    (s : WatermarkerImpl) (input : List ℚ) (frame_size : ℕ) :
    List ℚ × WatermarkerImpl :=
  if s.initialized = false then (input, s)
  else
    let s1 := watermarkerDrain sinO fpb
      { s with frame_buffer := FrameBuffer.push_samples s.frame_buffer input }
    if FrameBuffer.has_frame s1.output_buffer frame_size s1.channels then
      let p := FrameBuffer.pop_frame s1.output_buffer frame_size s1.channels
      (p.1, { s1 with output_buffer := p.2 })
    else (List.replicate input.length 0, s1)

/-- `RealtimeWatermarker::ProcessFrame(input, frame_size)`: validates
`input.size() == frame_size * channels` and on mismatch returns the input
unchanged without touching the implementation state. -/
def Watermarker.ProcessFrame (sinO : ℕ → ℤ → ℚ) (fpb : ℕ)
    (s : WatermarkerImpl) (input : List ℚ) (frame_size : ℕ) :
    List ℚ × WatermarkerImpl :=
  if input.length ≠ frame_size * s.channels then (input, s)
  else Watermarker.impl_process_frame sinO fpb s input frame_size


/-! ## Theorems -/

theorem isxdigit_facts (a : Char) (ha : isxdigit a = true) :
    isspaceC a = false ∧ a ≠ '+' ∧ a ≠ '-' := by
  simp [isxdigit] at ha
  refine ⟨by simp [isspaceC]; omega, ?_, ?_⟩ <;>
    · intro h
      rw [h] at ha
      revert ha
      decide

theorem stoi16_two_hex (a b : Char) (ha : isxdigit a = true) (hb : isxdigit b = true) :
    stoi16 [a, b] = some ((hexDigitVal a * 16 + hexDigitVal b : ℕ) : ℤ) := by
  obtain ⟨hsp, hplus, hminus⟩ := isxdigit_facts a ha
  unfold stoi16
  simp [List.dropWhile, hsp, stripSign, hplus, hminus, stripHexPrefix, takeHexVal, ha, hb]

theorem byteBits_length (v : ℤ) : (byteBits v).length = 8 := by
  simp [byteBits]

theorem parsePayloadLoop_valid : ∀ (h : List Char), h.length % 2 = 0 →
    (∀ c ∈ h, isxdigit c = true) →
    ∃ bits, parsePayloadLoop h = some bits ∧ bits.length = 4 * h.length
  | [], _, _ => ⟨[], rfl, rfl⟩
  | [_], hp, _ => by simp at hp
  | a :: b :: rest, hp, hall => by
    have ha : isxdigit a = true := hall a (by simp)
    have hb : isxdigit b = true := hall b (by simp)
    have hp' : rest.length % 2 = 0 := by simp at hp; omega
    obtain ⟨bits, h1, h2⟩ :=
      parsePayloadLoop_valid rest hp' (fun c hc => hall c (by simp [hc]))
    refine ⟨byteBits ((hexDigitVal a * 16 + hexDigitVal b : ℕ) : ℤ) ++ bits, ?_, ?_⟩
    · rw [parsePayloadLoop, stoi16_two_hex a b ha hb, h1]
    · simp [byteBits_length, h2]
      omega

theorem stoi16_byteToHex : ∀ b : ℕ, b < 256 → stoi16 (byteToHex b) = some (b : ℤ) := by
  set_option maxRecDepth 4000 in decide

theorem hexToTextLoop_byte (b : ℕ) (hb : b < 256) (rest : List Char) :
    hexToTextLoop (byteToHex b ++ rest) =
      match hexToTextLoop rest with
      | none => none
      | some tail => some (b :: tail) := by
  have h1 : stoi16 [hexChar (b / 16), hexChar (b % 16)] = some (b : ℤ) :=
    stoi16_byteToHex b hb
  have h2 : ((b : ℤ) % 256).toNat = b := by omega
  show hexToTextLoop (hexChar (b / 16) :: hexChar (b % 16) :: rest) = _
  rw [hexToTextLoop, h1]
  simp only [Int.emod_emod_of_dvd]
  rw [show ((b : ℤ).emod 256) = (b : ℤ) % 256 from rfl, h2]

theorem hexToTextLoop_textToHex (M : List ℕ) (h : ∀ b ∈ M, b < 256) :
    hexToTextLoop (TextToHex M) = some M := by
  induction M with
  | nil => rfl
  | cons x xs ih =>
    have hx : x < 256 := h x (by simp)
    have hmod : x % 256 = x := Nat.mod_eq_of_lt hx
    have : TextToHex (x :: xs) = byteToHex x ++ TextToHex xs := by
      simp [TextToHex, hmod]
    rw [this, hexToTextLoop_byte x hx, ih (fun b hb => h b (by simp [hb]))]

/-- C4: for every printable-ASCII byte string `M`,
`HexToText (TextToHex M) = M` (Utils round-trip). -/
theorem hexText_roundtrip (M : List ℕ) (hM : ∀ b ∈ M, 32 ≤ b ∧ b ≤ 126) :
    HexToText (TextToHex M) = M := by
  rw [HexToText, hexToTextLoop_textToHex M (fun b hb => by have := hM b hb; omega)]
  rfl

theorem hexText_roundtrip_witness :
    (∀ b ∈ [72, 105], 32 ≤ b ∧ b ≤ 126) ∧ HexToText (TextToHex [72, 105]) = [72, 105] :=
  ⟨by decide, hexText_roundtrip [72, 105] (by decide)⟩

/-- C3 counterexample: the empty string has even length and vacuously
hex-digit characters, yet `IsValidHexMessage` rejects it; and
`parse_payload "1g"` succeeds (std::stoi parses the digit prefix "1")
although `IsValidHexMessage "1g"` is false. -/
theorem valid_hex_claim_false :
    (IsValidHexMessage [] = false ∧ ([] : List Char).length % 2 = 0 ∧
      ∀ c ∈ ([] : List Char), isxdigit c = true) ∧
    (IsValidHexMessage ['1', 'g'] = false ∧ parse_payload ['1', 'g'] ≠ []) := by
  decide

/-- C3 (amended): `IsValidHexMessage h` is true iff `h` is non-empty, has even
length and every character is a hex digit; and whenever the predicate holds,
`parse_payload h` succeeds, producing `8 * (len/2) = 4 * len` bits. -/
theorem valid_hex_iff_and_parse (h : List Char) :
    (IsValidHexMessage h = true ↔
      h ≠ [] ∧ h.length % 2 = 0 ∧ ∀ c ∈ h, isxdigit c = true) ∧
    (IsValidHexMessage h = true →
      parse_payload h ≠ [] ∧ (parse_payload h).length = 4 * h.length) := by
  have hiff : IsValidHexMessage h = true ↔
      h ≠ [] ∧ h.length % 2 = 0 ∧ ∀ c ∈ h, isxdigit c = true := by
    unfold IsValidHexMessage
    by_cases he : h.isEmpty <;> by_cases hm : h.length % 2 = 0 <;>
      simp_all [List.isEmpty_iff, List.all_eq_true]
  refine ⟨hiff, fun hv => ?_⟩
  obtain ⟨hne, hm, hall⟩ := hiff.mp hv
  obtain ⟨bits, h1, h2⟩ := parsePayloadLoop_valid h hm hall
  have hpp : parse_payload h = bits := by
    rw [parse_payload, if_neg (by simpa [List.isEmpty_iff] using hne), h1]
    rfl
  rw [hpp]
  have hlen : 1 ≤ h.length := by
    cases h with
    | nil => exact absurd rfl hne
    | cons a t => simp
  constructor
  · intro hb
    rw [hb] at h2
    simp only [List.length_nil] at h2
    omega
  · exact h2

theorem valid_hex_iff_witness :
    IsValidHexMessage ['4', '8'] = true ∧
    parse_payload ['4', '8'] ≠ [] ∧ (parse_payload ['4', '8']).length = 4 * 2 := by
  have := (valid_hex_iff_and_parse ['4', '8']).2 (by decide)
  exact ⟨by decide, this.1, this.2⟩

/-- C2 evaluation: the first sample of the stream escapes the limiter.
With `sample_rate = 200` (`look_ahead = 1`) and input `[2, 0]`, the
backward broadcast's guard `int(i) - int(j) > 0` never raises
`max_buffer[0]`, so `process` emits the raw sample 2 whose magnitude
exceeds the ceiling 1 — the result holds for every `decay_coeff`;
it is shown here at `decay_coeff = 9/10`. -/
theorem limiter_first_sample_exceeds_ceiling :
    (Limiter.process (Limiter.init 200 (9 / 10)) [2, 0]).1 = [2] ∧ (1 : ℚ) < |(2 : ℚ)| := by
  have hla : lookAhead 200 = 1 := by norm_num [lookAhead]
  constructor
  · simp only [Limiter.process, Limiter.init, hla]
    norm_num [computeMaxBuffer, broadcastAt, emitLoop, List.range_succ]
  · norm_num

/-- C6 counterexample -/
theorem look_ahead_not_ceil :
    lookAhead 300 ≠ ⌈(300 : ℚ) * (5 / 1000)⌉₊ := by
  have he : (300 : ℚ) * (5 / 1000) = 3 / 2 := by norm_num
  have h1 : lookAhead 300 = 1 := by
    unfold lookAhead
    rw [show (((300 : ℕ) : ℚ)) * (5 / 1000) = 3 / 2 by norm_num,
      Nat.floor_eq_iff (by norm_num)]
    norm_num
  have h2 : ⌈(300 : ℚ) * (5 / 1000)⌉₊ = 2 := by
    rw [he, Nat.ceil_eq_iff (by norm_num)]
    norm_num
  omega

/-- C6 amended -/
theorem look_ahead_truncates (rate : ℕ) (_h : 0 < rate) :
    lookAhead rate = rate / 200 := by
  unfold lookAhead
  rw [show ((rate : ℚ) * (5 / 1000)) = (rate : ℚ) / (200 : ℕ) by push_cast; ring]
  rw [Nat.floor_div_nat, Nat.floor_natCast]

theorem look_ahead_truncates_witness :
    0 < 44100 ∧ lookAhead 44100 = 44100 / 200 :=
  ⟨by norm_num, look_ahead_truncates 44100 (by norm_num)⟩

theorem foldl_length_inv {β : Type} (f : List ℚ → β → List ℚ)
    (hf : ∀ mb b, (f mb b).length = mb.length) (l : List β) (mb : List ℚ) :
    (l.foldl f mb).length = mb.length := by
  induction l generalizing mb with
  | nil => rfl
  | cons x xs ih => rw [List.foldl_cons, ih, hf]

theorem broadcastAt_length (la : ℕ) (v : ℚ) (i : ℕ) (mb : List ℚ) :
    (broadcastAt la v i mb).length = mb.length := by
  apply foldl_length_inv
  intro mb j
  by_cases h : (i : ℤ) - (j : ℤ) > 0 <;> simp [h]

theorem computeMaxBuffer_length (la : ℕ) (buf mb : List ℚ) :
    (computeMaxBuffer la buf mb).length = mb.length := by
  apply foldl_length_inv
  intro mb i
  dsimp only
  split
  · exact broadcastAt_length _ _ _ _
  · rfl

theorem emitLoop_fst_length (d : ℚ) (ps : List (ℚ × ℚ)) (m : ℚ) :
    (emitLoop d ps m).1.length = ps.length := by
  induction ps generalizing m with
  | nil => rfl
  | cons p rest ih => simp [emitLoop, ih]

theorem process_lengths (st : LimiterState) (c : List ℚ)
    (hmb : st.max_buffer.length = st.buffer.length) :
    (Limiter.process st c).1.length = st.buffer.length + c.length - st.look_ahead ∧
    (Limiter.process st c).2.buffer.length = min (st.buffer.length + c.length) st.look_ahead ∧
    (Limiter.process st c).2.max_buffer.length = (Limiter.process st c).2.buffer.length ∧
    (Limiter.process st c).2.look_ahead = st.look_ahead := by
  have hn : (st.buffer ++ c).length = st.buffer.length + c.length := by simp
  have hmb2 : (computeMaxBuffer st.look_ahead (st.buffer ++ c)
      (st.max_buffer ++ List.replicate c.length 1)).length = st.buffer.length + c.length := by
    rw [computeMaxBuffer_length]
    simp [hmb]
  unfold Limiter.process
  by_cases hlt : st.look_ahead < (st.buffer ++ c).length
  · simp only [hlt, if_true, emitLoop_fst_length]
    simp [List.length_zip, hmb2, hn]
    omega
  · simp only [hlt, if_false]
    simp [hmb2, hn]
    omega

theorem run_out_length (st : LimiterState) (chunks : List (List ℚ))
    (hmb : st.max_buffer.length = st.buffer.length)
    (hbuf : st.buffer.length ≤ st.look_ahead) :
    (Limiter.run st chunks).1.length
      = st.buffer.length + (chunks.map List.length).sum - st.look_ahead := by
  induction chunks generalizing st with
  | nil => simp [Limiter.run]; omega
  | cons c cs ih =>
    obtain ⟨h1, h2, h3, h4⟩ := process_lengths st c hmb
    have ihh := ih (Limiter.process st c).2 h3 (by omega)
    simp only [Limiter.run, List.length_append, List.map_cons, List.sum_cons]
    rw [ihh, h1, h2, h4]
    omega

/-- C5: aggregate emitted length equals aggregate input minus look_ahead. -/
theorem limiter_latency (sample_rate : ℕ) (decay : ℚ) (chunks : List (List ℚ)) :
    (Limiter.run (Limiter.init sample_rate decay) chunks).1.length
      = (chunks.map List.length).sum - lookAhead sample_rate ∧
    ((chunks.map List.length).sum ≤ lookAhead sample_rate →
      (Limiter.run (Limiter.init sample_rate decay) chunks).1 = []) := by
  have h := run_out_length (Limiter.init sample_rate decay) chunks rfl (by simp [Limiter.init])
  have hb : (Limiter.init sample_rate decay).buffer = [] := rfl
  have hl : (Limiter.init sample_rate decay).look_ahead = lookAhead sample_rate := rfl
  rw [hb, hl] at h
  simp only [List.length_nil, Nat.zero_add] at h
  refine ⟨h, fun hle => ?_⟩
  have hz : (Limiter.run (Limiter.init sample_rate decay) chunks).1.length = 0 := by omega
  exact List.length_eq_zero.mp hz

theorem limiter_latency_witness :
    ((List.map List.length [[(1 : ℚ)]]).sum ≤ lookAhead 200) ∧
    (Limiter.run (Limiter.init 200 (1 / 2)) [[1]]).1 = [] := by
  have hle : (List.map List.length [[(1 : ℚ)]]).sum ≤ lookAhead 200 := by
    norm_num [lookAhead]
  exact ⟨hle, (limiter_latency 200 (1 / 2) [[1]]).2 hle⟩

theorem drainAll_append (fs ch : ℕ) (buf : List ℚ) :
    (FrameBuffer.drainAll fs ch buf).1 ++ (FrameBuffer.drainAll fs ch buf).2 = buf := by
  rw [FrameBuffer.drainAll]
  split
  · next h =>
    have hlt : (FrameBuffer.pop_frame buf fs ch).2.length < buf.length := by
      simp only [FrameBuffer.pop_frame, FrameBuffer.has_frame, decide_eq_true_eq] at h
      simp only [FrameBuffer.pop_frame]
      rw [if_neg (by omega)]
      simp only [List.length_drop]
      omega
    have ih := drainAll_append fs ch (FrameBuffer.pop_frame buf fs ch).2
    have hpop : (FrameBuffer.pop_frame buf fs ch).1 ++ (FrameBuffer.pop_frame buf fs ch).2 = buf := by
      simp only [FrameBuffer.pop_frame, FrameBuffer.has_frame, decide_eq_true_eq] at h ⊢
      rw [if_neg (by omega)]
      simp
    simp only [List.append_assoc, ih, hpop]
  · simp
termination_by buf.length
decreasing_by exact hlt

theorem drainAll_snd_length (fs ch : ℕ) (hpos : 0 < fs * ch) (buf : List ℚ) :
    (FrameBuffer.drainAll fs ch buf).2.length = buf.length % (fs * ch) := by
  rw [FrameBuffer.drainAll]
  split
  · next h =>
    have hhas : fs * ch ≤ buf.length := by
      have h2 := h.2
      simp only [FrameBuffer.has_frame, decide_eq_true_eq] at h2
      exact h2
    have hlt : (FrameBuffer.pop_frame buf fs ch).2.length < buf.length := by
      simp only [FrameBuffer.pop_frame]
      rw [if_neg (by omega)]
      simp only [List.length_drop]
      omega
    have ih := drainAll_snd_length fs ch hpos (FrameBuffer.pop_frame buf fs ch).2
    have hlen : (FrameBuffer.pop_frame buf fs ch).2.length = buf.length - fs * ch := by
      simp only [FrameBuffer.pop_frame]
      rw [if_neg (by omega)]
      simp
    rw [ih, hlen]
    conv_rhs => rw [← Nat.sub_add_cancel hhas]
    rw [Nat.add_mod_right]
  · next h =>
    have hlt : buf.length < fs * ch := by
      by_contra hc
      push_neg at hc
      exact h ⟨hpos, by simp only [FrameBuffer.has_frame, decide_eq_true_eq]; omega⟩
    exact (Nat.mod_eq_of_lt hlt).symm
termination_by buf.length
decreasing_by exact hlt

theorem runChunks_append (fs ch : ℕ) (buf : List ℚ) (cs : List (List ℚ)) :
    (FrameBuffer.runChunks fs ch buf cs).1 ++ (FrameBuffer.runChunks fs ch buf cs).2
      = buf ++ cs.flatten := by
  induction cs generalizing buf with
  | nil => simp [FrameBuffer.runChunks]
  | cons c cs ih =>
    simp only [FrameBuffer.runChunks, List.flatten_cons, List.append_assoc]
    rw [ih, ← List.append_assoc]
    rw [drainAll_append]
    simp [FrameBuffer.push_samples]

theorem runChunks_snd_length (fs ch : ℕ) (hpos : 0 < fs * ch) (buf : List ℚ)
    (hbuf : buf.length < fs * ch) (cs : List (List ℚ)) :
    (FrameBuffer.runChunks fs ch buf cs).2.length
      = (buf.length + cs.flatten.length) % (fs * ch) := by
  induction cs generalizing buf with
  | nil =>
    simp only [FrameBuffer.runChunks, List.flatten_nil, List.length_nil, Nat.add_zero]
    exact (Nat.mod_eq_of_lt hbuf).symm
  | cons c cs ih =>
    simp only [FrameBuffer.runChunks, List.flatten_cons]
    have hr : (FrameBuffer.drainAll fs ch (FrameBuffer.push_samples buf c)).2.length
        = (buf.length + c.length) % (fs * ch) := by
      rw [drainAll_snd_length fs ch hpos]
      simp [FrameBuffer.push_samples]
    rw [ih _ (by rw [hr]; exact Nat.mod_lt _ hpos), hr]
    rw [Nat.mod_add_mod]
    simp [Nat.add_assoc]

/-- C8: pushing samples chunk-by-chunk while popping fixed-size frames
whenever available yields the same popped sample sequence as pushing the
whole input at once and popping everything available. -/
theorem framebuffer_chunking (fs ch : ℕ) (hfs : 0 < fs) (hch : 0 < ch)
    (chunks : List (List ℚ)) :
    (FrameBuffer.runChunks fs ch [] chunks).1
      = (FrameBuffer.drainAll fs ch chunks.flatten).1 := by
  have hpos : 0 < fs * ch := Nat.mul_pos hfs hch
  have h1 := runChunks_append fs ch [] chunks
  have h2 := drainAll_append fs ch chunks.flatten
  simp only [List.nil_append] at h1
  have l1 := runChunks_snd_length fs ch hpos [] (by simpa using hpos) chunks
  have l2 := drainAll_snd_length fs ch hpos chunks.flatten
  simp only [List.length_nil, Nat.zero_add] at l1
  have heq : (FrameBuffer.runChunks fs ch [] chunks).1
        ++ (FrameBuffer.runChunks fs ch [] chunks).2
      = (FrameBuffer.drainAll fs ch chunks.flatten).1
        ++ (FrameBuffer.drainAll fs ch chunks.flatten).2 := h1.trans h2.symm
  have e1 : (FrameBuffer.runChunks fs ch [] chunks).1.length
      + (FrameBuffer.runChunks fs ch [] chunks).2.length = chunks.flatten.length := by
    rw [← List.length_append, h1]
  have e2 : (FrameBuffer.drainAll fs ch chunks.flatten).1.length
      + (FrameBuffer.drainAll fs ch chunks.flatten).2.length = chunks.flatten.length := by
    rw [← List.length_append, h2]
  exact (List.append_inj heq (by omega)).1

theorem framebuffer_chunking_witness :
    0 < 2 ∧ 0 < 1 ∧
    (FrameBuffer.runChunks 2 1 [] [[1], [2, 3], [4]]).1
      = (FrameBuffer.drainAll 2 1 ([[1], [2, 3], [4]] : List (List ℚ)).flatten).1 :=
  ⟨by norm_num, by norm_num, framebuffer_chunking 2 1 (by norm_num) (by norm_num) _⟩

/-- C10: pop_frame with insufficient buffered samples returns the empty
vector and leaves the queue unchanged. -/
theorem pop_frame_insufficient (buf : List ℚ) (n ch : ℕ)
    (h : buf.length < n * ch) :
    FrameBuffer.pop_frame buf n ch = ([], buf) := by
  simp only [FrameBuffer.pop_frame]
  rw [if_pos h]

theorem pop_frame_insufficient_witness :
    ([(1 : ℚ)].length < 2 * 1) ∧ FrameBuffer.pop_frame [(1 : ℚ)] 2 1 = ([], [1]) :=
  ⟨by norm_num, pop_frame_insufficient [1] 2 1 (by norm_num)⟩

theorem analyzeFrame_preserves (m : Option (ℚ × ℚ)) (s : DetectorImpl) :
    (analyzeFrame m s).frames_processed = s.frames_processed ∧
    (analyzeFrame m s).frame_buffer = s.frame_buffer ∧
    (analyzeFrame m s).channels = s.channels := by
  unfold analyzeFrame
  match m with
  | none => exact ⟨rfl, rfl, rfl⟩
  | some (a, b) =>
    dsimp only
    split
    · exact ⟨rfl, rfl, rfl⟩
    · split
      · exact ⟨rfl, rfl, rfl⟩
      · exact ⟨rfl, rfl, rfl⟩

theorem detectorDrain_counts (oracle : List ℚ → Option (ℚ × ℚ)) (s : DetectorImpl)
    (hch : 0 < s.channels) :
    (detectorDrain oracle s).frames_processed
        = s.frames_processed + s.frame_buffer.length / (Params.frame_size * s.channels) ∧
    (detectorDrain oracle s).frame_buffer.length
        = s.frame_buffer.length % (Params.frame_size * s.channels) ∧
    (detectorDrain oracle s).channels = s.channels := by
  rw [detectorDrain]
  split
  · next h =>
    have hhas : Params.frame_size * s.channels ≤ s.frame_buffer.length := by
      have h2 := h.2
      simp only [FrameBuffer.has_frame, decide_eq_true_eq] at h2
      exact h2
    have hB : 0 < Params.frame_size * s.channels := h.1
    have hp2 : (FrameBuffer.pop_frame s.frame_buffer Params.frame_size s.channels).2
        = s.frame_buffer.drop (Params.frame_size * s.channels) := by
      simp only [FrameBuffer.pop_frame]
      rw [if_neg (by omega)]
    have hlt : (FrameBuffer.pop_frame s.frame_buffer Params.frame_size s.channels).2.length
        < s.frame_buffer.length := by
      rw [hp2]
      simp only [List.length_drop]
      omega
    obtain ⟨hf, hb, hc⟩ := analyzeFrame_preserves
      (oracle (FrameBuffer.pop_frame s.frame_buffer Params.frame_size s.channels).1) s
    obtain ⟨ih1, ih2, ih3⟩ := detectorDrain_counts oracle
      { analyzeFrame (oracle (FrameBuffer.pop_frame s.frame_buffer Params.frame_size s.channels).1) s with
        frame_buffer := (FrameBuffer.pop_frame s.frame_buffer Params.frame_size s.channels).2,
        frames_processed := (analyzeFrame (oracle (FrameBuffer.pop_frame s.frame_buffer Params.frame_size s.channels).1) s).frames_processed + 1 }
      (by simpa [hc] using hch)
    dsimp only at ih1 ih2 ih3 ⊢
    rw [ih1, ih2, ih3, hc, hf, hp2]
    simp only [List.length_drop]
    refine ⟨?_, ?_, trivial⟩
    · have := Nat.div_eq_sub_div hB hhas
      omega
    · conv_rhs => rw [← Nat.sub_add_cancel hhas]
      rw [Nat.add_mod_right]
  · next h =>
    have hB : 0 < Params.frame_size * s.channels := by
      have h1 : 0 < Params.frame_size := by norm_num [Params.frame_size]
      positivity
    have hlen : s.frame_buffer.length < Params.frame_size * s.channels := by
      by_contra hcon
      push_neg at hcon
      exact h ⟨hB, by simp only [FrameBuffer.has_frame, decide_eq_true_eq]; omega⟩
    refine ⟨?_, ?_, rfl⟩
    · rw [Nat.div_eq_of_lt hlen]
      omega
    · rw [Nat.mod_eq_of_lt hlen]
termination_by s.frame_buffer.length
decreasing_by exact hlt

theorem process_frame_counts (oracle : List ℚ → Option (ℚ × ℚ)) (s : DetectorImpl)
    (input : List ℚ) (fsz : ℕ) (hch : 0 < s.channels)
    (hbuf : s.frame_buffer.length < Params.frame_size * s.channels) :
    (Detector.process_frame oracle s input fsz).frames_processed
        = s.frames_processed + (s.frame_buffer.length
            + (if input.length = fsz * s.channels then input.length else 0))
              / (Params.frame_size * s.channels) ∧
    (Detector.process_frame oracle s input fsz).frame_buffer.length
        = (s.frame_buffer.length
            + (if input.length = fsz * s.channels then input.length else 0))
              % (Params.frame_size * s.channels) ∧
    (Detector.process_frame oracle s input fsz).channels = s.channels := by
  unfold Detector.process_frame
  by_cases hm : input.length = fsz * s.channels
  · rw [if_neg (by omega), if_pos hm]
    obtain ⟨d1, d2, d3⟩ := detectorDrain_counts oracle
      { s with frame_buffer := FrameBuffer.push_samples s.frame_buffer input }
      (by simpa using hch)
    rw [d1, d2, d3]
    simp [FrameBuffer.push_samples]
  · rw [if_pos (by omega), if_neg hm]
    refine ⟨?_, ?_, rfl⟩
    · rw [Nat.add_zero, Nat.div_eq_of_lt hbuf, Nat.add_zero]
    · rw [Nat.add_zero, Nat.mod_eq_of_lt hbuf]

theorem div_mod_shift (B A y : ℕ) (hB : 0 < B) :
    y / B + (y % B + A) / B = (y + A) / B ∧ (y % B + A) % B = (y + A) % B := by
  constructor
  · conv_rhs => rw [← Nat.div_add_mod y B, Nat.add_assoc, Nat.mul_add_div hB]
  · rw [Nat.mod_add_mod]

theorem run_counts (oracle : List ℚ → Option (ℚ × ℚ)) (calls : List (List ℚ × ℕ)) :
    ∀ (s : DetectorImpl), 0 < s.channels →
    s.frame_buffer.length < Params.frame_size * s.channels →
    (Detector.run oracle s calls).frames_processed
        = s.frames_processed + (s.frame_buffer.length + acceptedLen s.channels calls)
            / (Params.frame_size * s.channels) ∧
    (Detector.run oracle s calls).frame_buffer.length
        = (s.frame_buffer.length + acceptedLen s.channels calls)
            % (Params.frame_size * s.channels) ∧
    (Detector.run oracle s calls).channels = s.channels := by
  induction calls with
  | nil =>
    intro s hch hbuf
    refine ⟨?_, ?_, rfl⟩ <;>
      simp [Detector.run, acceptedLen, Nat.div_eq_of_lt hbuf, Nat.mod_eq_of_lt hbuf]
  | cons c cs ih =>
    intro s hch hbuf
    have hB : 0 < Params.frame_size * s.channels := by
      have h1 : (0 : ℕ) < Params.frame_size := by norm_num [Params.frame_size]
      positivity
    obtain ⟨p1, p2, p3⟩ := process_frame_counts oracle s c.1 c.2 hch hbuf
    obtain ⟨r1, r2, r3⟩ := ih (Detector.process_frame oracle s c.1 c.2)
      (by rw [p3]; exact hch)
      (by rw [p2, p3]; exact Nat.mod_lt _ hB)
    rw [p3] at r1 r2 r3
    have hrun : Detector.run oracle s (c :: cs)
        = Detector.run oracle (Detector.process_frame oracle s c.1 c.2) cs := rfl
    have hacc : acceptedLen s.channels (c :: cs)
        = (if c.1.length = c.2 * s.channels then c.1.length else 0)
          + acceptedLen s.channels cs := by
      simp [acceptedLen]
    obtain ⟨k1, k2⟩ := div_mod_shift (Params.frame_size * s.channels)
      (acceptedLen s.channels cs)
      (s.frame_buffer.length + (if c.1.length = c.2 * s.channels then c.1.length else 0)) hB
    refine ⟨?_, ?_, ?_⟩
    · rw [hrun, r1, p1, p2, hacc, ← Nat.add_assoc]
      omega
    · rw [hrun, r2, p2, hacc, ← Nat.add_assoc]
      omega
    · rw [hrun, r3]

/-- C9: after Reset the detector reports absent, and keeps reporting absent
for as long as fewer than `window_size/2` blocks have been processed since
the Reset, regardless of the state before Reset.  The first conjunct pins
down the number of blocks processed since Reset. -/
theorem detector_reset_absent (oracle : List ℚ → Option (ℚ × ℚ)) (s : DetectorImpl)
    (calls : List (List ℚ × ℕ)) (hch : 0 < s.channels)
    (hfew : acceptedLen s.channels calls
      < (detectionWindowFrames / 2) * (Params.frame_size * s.channels)) :
    (Detector.run oracle (Detector.reset s) calls).frames_processed
        = acceptedLen s.channels calls / (Params.frame_size * s.channels) ∧
    Detector.get_detection_result (Detector.run oracle (Detector.reset s) calls) = none := by
  have hB : 0 < Params.frame_size * s.channels := by
    have h1 : (0 : ℕ) < Params.frame_size := by norm_num [Params.frame_size]
    positivity
  obtain ⟨r1, r2, r3⟩ := run_counts oracle calls (Detector.reset s)
    (by simpa [Detector.reset] using hch)
    (by simpa [Detector.reset] using hB)
  have hr : (Detector.run oracle (Detector.reset s) calls).frames_processed
      = acceptedLen s.channels calls / (Params.frame_size * s.channels) := by
    rw [r1]
    simp [Detector.reset]
  refine ⟨hr, ?_⟩
  have hlt : (Detector.run oracle (Detector.reset s) calls).frames_processed
      < detectionWindowFrames / 2 := by
    rw [hr]
    exact (Nat.div_lt_iff_lt_mul hB).2 hfew
  rw [Detector.get_detection_result, if_pos hlt]

theorem detector_reset_absent_witness :
    (0 < (Detector.init 44100 1).channels) ∧
    (acceptedLen (Detector.init 44100 1).channels [([0, 0, 0], 3)]
      < (detectionWindowFrames / 2) * (Params.frame_size * (Detector.init 44100 1).channels)) ∧
    (Detector.run (fun _ => none) (Detector.reset (Detector.init 44100 1))
        [([0, 0, 0], 3)]).frames_processed
      = acceptedLen (Detector.init 44100 1).channels [([0, 0, 0], 3)]
          / (Params.frame_size * (Detector.init 44100 1).channels) ∧
    Detector.get_detection_result (Detector.run (fun _ => none)
        (Detector.reset (Detector.init 44100 1)) [([0, 0, 0], 3)]) = none := by
  have h1 : 0 < (Detector.init 44100 1).channels := by norm_num [Detector.init]
  have h2 : acceptedLen (Detector.init 44100 1).channels [([0, 0, 0], 3)]
      < (detectionWindowFrames / 2) * (Params.frame_size * (Detector.init 44100 1).channels) := by
    norm_num [acceptedLen, Detector.init, detectionWindowFrames, Params.frame_size]
  have h3 := detector_reset_absent (fun _ => none) (Detector.init 44100 1) [([0, 0, 0], 3)] h1 h2
  exact ⟨h1, h2, h3.1, h3.2⟩

theorem range_getD_sum (l : List ℚ) (n : ℕ) (hn : l.length = n) :
    ((List.range n).map (fun i => l.getD i 0)).sum = l.sum := by
  subst hn
  induction l using List.reverseRecOn with
  | nil => rfl
  | append_singleton xs x ih =>
    have hcongr : (List.range xs.length).map (fun i => (xs ++ [x]).getD i 0)
        = (List.range xs.length).map (fun i => xs.getD i 0) :=
      List.map_congr_left (fun i hi => by
        rw [List.mem_range] at hi
        exact List.getD_append xs [x] 0 i hi)
    rw [List.length_append, List.length_singleton, List.range_succ, List.map_append,
      List.sum_append, hcongr, ih]
    simp [List.getD_append_right xs [x] 0 xs.length le_rfl]

/-- C1 evaluation: two detector states holding different accumulated score
evidence (every block slot voting bit 1 with score 71; versus only the last
50 block slots voting bit 1 with score 200) both make `get_detection_result`
report a detection with the same fixed message "48656c6c6f20576f726c6421"
("Hello World!" as a hex string, not even passed through `HexToText`):
the returned message is a canned constant independent of the evidence. -/
theorem detector_canned_message :
    Detector.get_detection_result
        { Detector.init 44100 1 with
            frames_processed := 100
            scores1 := List.replicate 100 (71 : ℚ) }
      = some ("48656c6c6f20576f726c6421", 71 / 100) ∧
    Detector.get_detection_result
        { Detector.init 44100 1 with
            frames_processed := 100
            scores1 := List.replicate 50 (0 : ℚ) ++ List.replicate 50 200 }
      = some ("48656c6c6f20576f726c6421", 1) ∧
    List.replicate 100 (71 : ℚ) ≠ List.replicate 50 (0 : ℚ) ++ List.replicate 50 200 := by
  refine ⟨?_, ?_, ?_⟩
  · rw [Detector.get_detection_result]
    rw [if_neg (by norm_num [detectionWindowFrames])]
    rw [show ({ Detector.init 44100 1 with
          frames_processed := 100
          scores1 := List.replicate 100 (71 : ℚ) } : DetectorImpl).scores0
      = List.replicate 100 (0 : ℚ) from rfl]
    rw [show ({ Detector.init 44100 1 with
          frames_processed := 100
          scores1 := List.replicate 100 (71 : ℚ) } : DetectorImpl).scores1
      = List.replicate 100 (71 : ℚ) from rfl]
    rw [range_getD_sum (List.replicate 100 (0 : ℚ)) detectionWindowFrames (by
      simp [detectionWindowFrames])]
    rw [range_getD_sum (List.replicate 100 (71 : ℚ)) detectionWindowFrames (by
      simp [detectionWindowFrames])]
    rw [List.sum_replicate, List.sum_replicate]
    norm_num [detectionWindowFrames, confidenceThreshold]
  · rw [Detector.get_detection_result]
    rw [if_neg (by norm_num [detectionWindowFrames])]
    rw [show ({ Detector.init 44100 1 with
          frames_processed := 100
          scores1 := List.replicate 50 (0 : ℚ) ++ List.replicate 50 200 } : DetectorImpl).scores0
      = List.replicate 100 (0 : ℚ) from rfl]
    rw [show ({ Detector.init 44100 1 with
          frames_processed := 100
          scores1 := List.replicate 50 (0 : ℚ) ++ List.replicate 50 200 } : DetectorImpl).scores1
      = List.replicate 50 (0 : ℚ) ++ List.replicate 50 200 from rfl]
    rw [range_getD_sum (List.replicate 100 (0 : ℚ)) detectionWindowFrames (by
      simp [detectionWindowFrames])]
    rw [range_getD_sum (List.replicate 50 (0 : ℚ) ++ List.replicate 50 200)
      detectionWindowFrames (by simp [detectionWindowFrames])]
    rw [List.sum_append, List.sum_replicate, List.sum_replicate, List.sum_replicate]
    norm_num [detectionWindowFrames, confidenceThreshold]
  · intro hcontra
    have h0 : (List.replicate 100 (71 : ℚ)).getD 0 0
        = (List.replicate 50 (0 : ℚ) ++ List.replicate 50 200).getD 0 0 := by
      rw [hcontra]
    norm_num [List.replicate_succ] at h0

/-- C7: when the input length differs from `frame_size * channels`,
`RealtimeWatermarker::ProcessFrame` returns the input unchanged and the
whole implementation state — frame buffers, block counter (`frame_count`)
and limiter history included — is identical. -/
theorem watermarker_mismatch_passthrough (sinO : ℕ → ℤ → ℚ) (fpb : ℕ)
    (s : WatermarkerImpl) (input : List ℚ) (frame_size : ℕ)
    (h : input.length ≠ frame_size * s.channels) :
    (Watermarker.ProcessFrame sinO fpb s input frame_size).1 = input ∧
    (Watermarker.ProcessFrame sinO fpb s input frame_size).2 = s := by
  rw [Watermarker.ProcessFrame, if_pos h]
  exact ⟨rfl, rfl⟩

theorem watermarker_mismatch_witness :
    (([(1 : ℚ)] : List ℚ).length ≠ 2 * 1) ∧
    (Watermarker.ProcessFrame (fun _ _ => 0) 2
        { sample_rate := 44100, channels := 1, strength := 4 / 1000,
          bitvec := [0, 1], frame_count := 5, frame_buffer := [], output_buffer := [],
          limiter := Limiter.init 44100 (1 / 2), initialized := true } [1] 2).1 = [1] ∧
    (Watermarker.ProcessFrame (fun _ _ => 0) 2
        { sample_rate := 44100, channels := 1, strength := 4 / 1000,
          bitvec := [0, 1], frame_count := 5, frame_buffer := [], output_buffer := [],
          limiter := Limiter.init 44100 (1 / 2), initialized := true } [1] 2).2
      = { sample_rate := 44100, channels := 1, strength := 4 / 1000,
          bitvec := [0, 1], frame_count := 5, frame_buffer := [], output_buffer := [],
          limiter := Limiter.init 44100 (1 / 2), initialized := true } := by
  have h : (([(1 : ℚ)] : List ℚ).length ≠ 2 * 1) := by norm_num
  have h2 := watermarker_mismatch_passthrough (fun _ _ => 0) 2
    { sample_rate := 44100, channels := 1, strength := 4 / 1000,
      bitvec := [0, 1], frame_count := 5, frame_buffer := [], output_buffer := [],
      limiter := Limiter.init 44100 (1 / 2), initialized := true } [1] 2 h
  exact ⟨h, h2.1, h2.2⟩

end AudioWmark
